import Mathlib

/-!
Verification of the mp3-duration-reporter pipeline (src/main.rs).

The program is modelled denotationally.  A directory is a list of entries;
each entry records its name, whether it is a directory, and the outcome of
`tokio::fs::read` on it (`none` models a read error — including the always
failing read of a subdirectory).  The external mp3 decoder
(`mp3_duration::from_read`) is an opaque parameter `decode : List Nat →
Option Nat` mapping file bytes to a duration in milliseconds (`none` models
a decode error).

Panics inside `tokio::spawn`ed tasks (the dispatcher's `read_dir` expect and
a worker's file-read expect) do not terminate the process: they abort only
that task, dropping its channel sender during unwinding.  Panics in the main
task (output-file creation, header write, record write) terminate the whole
process with a non-zero status.  Numeric behaviour follows release builds:
the `u64` running total wraps modulo 2^64; `Duration::as_millis()` values
that do not fit in `u64` make `try_into().unwrap()` panic inside the worker
task.
-/

/-- 2^64, the modulus of Rust's `u64` arithmetic. -/
def u64Bound : Nat := 2 ^ 64

/-- `u8`/`char::to_ascii_lowercase`: lowercase ASCII uppercase letters only. -/
def asciiLower (c : Char) : Char :=
  if 'A' ≤ c ∧ c ≤ 'Z' then Char.ofNat (c.toNat + 32) else c

/-- Characters after the last `'.'` of the list, or `none` if there is no dot. -/
def afterLastDot : List Char → Option (List Char)
  | [] => none
  | c :: cs =>
    match afterLastDot cs with
    | some e => some e
    | none => if c = '.' then some cs else none

/-- Rust `Path::extension` applied to a plain file name: the portion after the
last `'.'`, except that a name whose only dot is its first character (a
hidden file such as `".mp3"`) has no extension.  Searching for dots only in
the tail of the name realises exactly that rule. -/
def rustExtension (name : String) : Option (List Char) :=
  match name.data with
  | [] => none
  | _ :: cs => afterLastDot cs

/-- One directory entry as seen by `read_dir`: its file name, whether it is a
subdirectory, and the result of `tokio::fs::read` on it (`none` = the read
fails; reading a subdirectory always fails). -/
structure Entry where
  name : String
  isDir : Bool
  read : Option (List Nat)
deriving DecidableEq

/-- main.rs line 68: the classifier keeps an entry iff the ASCII-lowercased
extension of its path equals `"mp3"`.  It inspects only the name — there is
no regular-file test. -/
def classified (e : Entry) : Bool :=
  match rustExtension e.name with
  | some ext => ext.map asciiLower == ['m', 'p', '3']
  | none => false

/-- `u128 → u64` conversion `try_into()`: succeeds iff the value fits. -/
def tryIntoU64 (n : Nat) : Option Nat :=
  if n < u64Bound then some n else none

/-- The message a worker task (main.rs lines 76–99) sends on the channel, or
`none` if the task panics before sending.  A failed `tokio::fs::read` panics
(no send); a decode error is replaced by duration 0; a decoded duration that
does not fit in `u64` panics at `try_into().unwrap()` (no send). -/
def workerSend (decode : List Nat → Option Nat) (e : Entry) :
    Option (String × Nat) :=
  match e.read with
  | none => none
  | some bytes =>
    match decode bytes with
    | some d => (tryIntoU64 d).map fun d64 => (e.name, d64)
    | none => some (e.name, 0)

/-- Number of channel sends a worker for entry `e` performs (0 or 1). -/
def workerSendCount (decode : List Nat → Option Nat) (e : Entry) : Nat :=
  ((workerSend decode e).map fun _ => 1).getD 0

/-- All messages produced by the run's workers, in directory-enumeration
order: one per classified entry whose worker reaches its send. -/
def sentResults (decode : List Nat → Option Nat) (entries : List Entry) :
    List (String × Nat) :=
  entries.filterMap fun e => if classified e then workerSend decode e else none

/-- main.rs line 115 in a release build: wrapping `u64` addition. -/
def wadd (t d : Nat) : Nat := (t + d) % u64Bound

/-- The aggregation loop's final total: fold of wrapping addition over the
received results in arrival order, starting from 0 (main.rs lines 103–116). -/
def wtotal (rs : List (String × Nat)) : Nat :=
  rs.foldl (fun t r => wadd t r.2) 0

/-- The TSV header written at main.rs lines 47–51. -/
def headerLine : String := "clip\tduration[ms]\n"

/-- One data row (main.rs line 106): file name, tab, duration, newline. -/
def fmtLine (r : String × Nat) : String :=
  r.1 ++ "\t" ++ toString r.2 ++ "\n"

/-- Observable events of the main task, in program order. -/
inductive Ev where
  | createFile : Ev
  | writeHeader : Ev
  | writeRecord : String → Nat → Ev
  | flushFile : Ev
  | printTotal : Nat → Ev
deriving DecidableEq

/-- The filesystem situation of one run: whether `read_dir` on the argument
succeeds, whether `File::create` of the output file succeeds, and the
directory's entries. -/
structure FS where
  dirExists : Bool
  outCreateOk : Bool
  entries : List Entry
deriving DecidableEq

/-- The multiset of worker messages a run generates.  If output-file creation
fails, main panics before spawning anything; if `read_dir` fails, the
dispatcher task panics before spawning any worker.  Either way no message is
ever sent. -/
def runSends (decode : List Nat → Option Nat) (fs : FS) :
    List (String × Nat) :=
  if fs.outCreateOk && fs.dirExists then sentResults decode fs.entries else []

/-- Event trace of the main task for one run, given the order `arrival` in
which the writer receives worker results (any permutation of `runSends`).
The code creates the file, writes the header, writes one row per received
result, and prints the total; it never flushes or syncs the output file. -/
def runTrace (fs : FS) (arrival : List (String × Nat)) : List Ev :=
  if fs.outCreateOk then
    Ev.createFile :: Ev.writeHeader ::
      (arrival.map fun r => Ev.writeRecord r.1 r.2)
        ++ [Ev.printTotal (wtotal arrival)]
  else []

/-- Extract a data row from an event. -/
def recOf : Ev → Option (String × Nat)
  | Ev.writeRecord n d => some (n, d)
  | _ => none

/-- Extract a printed-to-stdout integer from an event. -/
def printOf : Ev → Option Nat
  | Ev.printTotal t => some t
  | _ => none

/-- Outcome of one run: process exit code, whether the output file was
created, the data rows in write order, and the integers printed to stdout. -/
structure RunOutcome where
  exitCode : Nat
  outFileCreated : Bool
  records : List (String × Nat)
  stdout : List Nat
deriving DecidableEq

/-- Denotation of one whole run (main.rs `main`), parameterised by the order
`arrival` in which the writer receives worker results; a run of the program
on filesystem `fs` with decoder `decode` is `run fs arrival` for some
`arrival` that is a permutation of `runSends decode fs`.  A failed
output-file creation is a panic in the main task: exit code 101, nothing
written, nothing printed.  Otherwise the process always exits 0 — panics in
spawned tasks (missing directory, unreadable file) only kill those tasks. -/
def run (fs : FS) (arrival : List (String × Nat)) : RunOutcome :=
  { exitCode := if fs.outCreateOk then 0 else 101
    outFileCreated := fs.outCreateOk
    records := (runTrace fs arrival).filterMap recOf
    stdout := (runTrace fs arrival).filterMap printOf }

/-- Lines of the output file after the run, in order. -/
def fileContent (o : RunOutcome) : List String :=
  if o.outFileCreated then headerLine :: o.records.map fmtLine else []

/-- Count of data rows among the run's records whose clip name is `n`. -/
def rowsNamed (o : RunOutcome) (n : String) : Nat :=
  (o.records.filter fun r => r.1 == n).length

/-! ### Spec-side comparison definitions -/

/-- Modelled from the spec's words for claim C6: the File Classifier accepts
an entry iff it is a regular file whose extension case-insensitively matches
the target extension. -/
def specAccepts (e : Entry) : Bool := !e.isDir && classified e

/-- Modelled from the spec's words for claim C4: the number of entries whose
extension matches the target, excluding subdirectories and non-matching
files. -/
def specMatchCount (entries : List Entry) : Nat :=
  (entries.filter fun e => !e.isDir && classified e).length

/-- Modelled from the spec's words for claim C5: scanning the trace left to
right, every total printed to stdout must be preceded by an earlier durable
flush of the output file.  The accumulator records whether a flush has
happened yet. -/
def flushSeen : List Ev → Bool → Bool
  | [], _ => true
  | Ev.flushFile :: tr, _ => flushSeen tr true
  | Ev.printTotal _ :: tr, seen => seen && flushSeen tr seen
  | _ :: tr, seen => flushSeen tr seen

/-- Claim C5's flush requirement on a trace: no total is printed before the
output file has been flushed. -/
def specPrintAfterFlush (tr : List Ev) : Bool := flushSeen tr false

/-! ### Channel model (claim C10)

The mpsc channel of main.rs line 53, viewed from its sender side.  The
receiver loop's termination condition (`recv` returning `None`) is reached
exactly when every sender handle has been dropped and the queue is empty. -/

/-- Events on the channel's sender side: cloning a sender handle, dropping
one (normally or during panic unwinding), or sending a message. -/
inductive ChEv where
  | clone : ChEv
  | dropS : ChEv
  | send : String × Nat → ChEv
deriving DecidableEq

/-- Is this event a sender clone? -/
def isClone : ChEv → Bool
  | ChEv.clone => true
  | _ => false

/-- Is this event a sender drop? -/
def isDropS : ChEv → Bool
  | ChEv.dropS => true
  | _ => false

/-- The message carried by a send event, if any. -/
def sendMsg : ChEv → Option (String × Nat)
  | ChEv.send m => some m
  | _ => none

/-- Channel state: number of live sender handles and the queued messages. -/
structure Ch where
  senders : Nat
  queue : List (String × Nat)
deriving DecidableEq

/-- Initial state: the one sender created at main.rs line 53 (moved into the
dispatcher task), empty queue. -/
def chInit : Ch := ⟨1, []⟩

/-- Effect of one sender-side event on the channel state. -/
def chStep (c : Ch) : ChEv → Ch
  | ChEv.clone => ⟨c.senders + 1, c.queue⟩
  | ChEv.dropS => ⟨c.senders - 1, c.queue⟩
  | ChEv.send m => ⟨c.senders, c.queue ++ [m]⟩

/-- Run a sequence of sender-side events from a state. -/
def chExec (c : Ch) (evs : List ChEv) : Ch := evs.foldl chStep c

/-- Number of clone events. -/
def nClones (evs : List ChEv) : Nat := (evs.filter isClone).length

/-- Number of drop events. -/
def nDrops (evs : List ChEv) : Nat := (evs.filter isDropS).length

/-- A schedule is valid when no sender handle is dropped before it exists:
in every prefix, drops never outnumber clones plus the original handle.
Every real interleaving of the program's tasks satisfies this, since each
worker's drop follows its own clone and the dispatcher's original handle is
dropped once. -/
def validSched (evs : List ChEv) : Prop :=
  ∀ n, nDrops (evs.take n) ≤ nClones (evs.take n) + 1

/-- Sender-side events of the task spawned for one classified entry: the
dispatcher clones the sender (main.rs line 74), the worker performs its send
if it reaches it (line 96), and the clone is dropped when the worker
finishes — or when its panic unwinds. -/
def workerEvents (decode : List Nat → Option Nat) (e : Entry) : List ChEv :=
  ChEv.clone :: ((workerSend decode e).toList.map ChEv.send ++ [ChEv.dropS])

/-- All sender-side events of a run over `entries`, in enumeration order.
The final drop is the dispatcher's original sender going out of scope when
its task ends (line 101) — or when its panic unwinds.  The workers are never
joined; closure arises from these drops alone. -/
def canonicalEvents (decode : List Nat → Option Nat) : List Entry → List ChEv
  | [] => [ChEv.dropS]
  | e :: es =>
    (if classified e then workerEvents decode e else [])
      ++ canonicalEvents decode es

/-- The aggregation loop (main.rs lines 105–116) once all producer events
have happened: it receives every queued message, then `recv` on the empty
queue returns `None` iff no sender is left.  Returns the received messages
and whether the loop terminated via channel closure (`true`) or would block
forever awaiting a surviving sender (`false`). -/
def drainLoop : List (String × Nat) → Nat → List (String × Nat) × Bool
  | [], s => ([], s == 0)
  | m :: q, s =>
    let r := drainLoop q s
    (m :: r.1, r.2)

/-! ### Concrete fixtures used by counterexamples and witnesses -/

/-- A decoder that fails on every input. -/
def decNone : List Nat → Option Nat := fun _ => none

/-- A decoder that reports 5 ms for every input. -/
def dec5 : List Nat → Option Nat := fun _ => some 5

/-- A decoder that reports 2^63 ms for every input (a legal `u64`). -/
def decHuge : List Nat → Option Nat := fun _ => some (2 ^ 63)

/-- Two readable mp3 files whose decoded durations sum to 2^64. -/
def hugeFS : FS :=
  ⟨true, true, [⟨"a.mp3", false, some []⟩, ⟨"b.mp3", false, some []⟩]⟩

/-- A directory holding one classified but unreadable regular file. -/
def unreadableFS : FS := ⟨true, true, [⟨"a.mp3", false, none⟩]⟩

/-- A directory mixing readable mp3s (one upper-case), a non-matching file,
and an unreadable mp3. -/
def mixedFS : FS :=
  ⟨true, true,
    [⟨"a.mp3", false, some []⟩, ⟨"b.MP3", false, some [2]⟩,
      ⟨"notes.txt", false, some []⟩, ⟨"x.mp3", false, none⟩]⟩

/-- A directory where one classified file is unreadable (deleted in a race)
and another is fine. -/
def goneFS : FS :=
  ⟨true, true, [⟨"gone.mp3", false, none⟩, ⟨"a.mp3", false, some []⟩]⟩

/-! ### Helper lemmas about the run model -/

lemma filterMap_recOf_map (arrival : List (String × Nat)) :
    (arrival.map fun r => Ev.writeRecord r.1 r.2).filterMap recOf = arrival := by
  induction arrival with
  | nil => rfl
  | cons a t ih => simp [recOf, ih]

lemma filterMap_printOf_map (arrival : List (String × Nat)) :
    (arrival.map fun r => Ev.writeRecord r.1 r.2).filterMap printOf = [] := by
  induction arrival with
  | nil => rfl
  | cons a t ih => simp [printOf, ih]

lemma runTrace_ok (fs : FS) (arrival : List (String × Nat))
    (hok : fs.outCreateOk = true) :
    runTrace fs arrival
      = Ev.createFile :: Ev.writeHeader ::
          (arrival.map fun r => Ev.writeRecord r.1 r.2)
            ++ [Ev.printTotal (wtotal arrival)] := by
  simp [runTrace, hok]

lemma run_records (fs : FS) (arrival : List (String × Nat))
    (hok : fs.outCreateOk = true) : (run fs arrival).records = arrival := by
  show (runTrace fs arrival).filterMap recOf = arrival
  rw [runTrace_ok fs arrival hok]
  show ((arrival.map fun r => Ev.writeRecord r.1 r.2)
      ++ [Ev.printTotal (wtotal arrival)]).filterMap recOf = arrival
  rw [List.filterMap_append, filterMap_recOf_map]
  simp [recOf]

lemma run_stdout (fs : FS) (arrival : List (String × Nat))
    (hok : fs.outCreateOk = true) :
    (run fs arrival).stdout = [wtotal arrival] := by
  show (runTrace fs arrival).filterMap printOf = [wtotal arrival]
  rw [runTrace_ok fs arrival hok]
  show ((arrival.map fun r => Ev.writeRecord r.1 r.2)
      ++ [Ev.printTotal (wtotal arrival)]).filterMap printOf = [wtotal arrival]
  rw [List.filterMap_append, filterMap_printOf_map]
  simp [printOf]

lemma run_exit (fs : FS) (arrival : List (String × Nat))
    (hok : fs.outCreateOk = true) : (run fs arrival).exitCode = 0 := by
  simp [run, hok]

lemma wtotal_aux (rs : List (String × Nat)) : ∀ t : Nat,
    rs.foldl (fun a r => wadd a r.2) (t % u64Bound)
      = (t + (rs.map Prod.snd).sum) % u64Bound := by
  induction rs with
  | nil => intro t; simp
  | cons a rest ih =>
    intro t
    rw [List.foldl_cons]
    have h1 : wadd (t % u64Bound) a.2 = (t + a.2) % u64Bound := by
      simp [wadd, Nat.mod_add_mod]
    rw [h1, ih (t + a.2), List.map_cons, List.sum_cons, ← Nat.add_assoc]

lemma wtotal_eq_sum_mod (rs : List (String × Nat)) :
    wtotal rs = ((rs.map Prod.snd).sum) % u64Bound := by
  have h := wtotal_aux rs 0
  simpa [wtotal] using h

lemma wtotal_perm {rs rs' : List (String × Nat)} (h : rs.Perm rs') :
    wtotal rs = wtotal rs' := by
  rw [wtotal_eq_sum_mod, wtotal_eq_sum_mod, List.Perm.sum_eq (h.map Prod.snd)]

lemma workerSend_of_decode_ok {decode : List Nat → Option Nat} {e : Entry}
    {bytes : List Nat} {d : Nat} (hr : e.read = some bytes)
    (hd : decode bytes = some d) (hlt : d < u64Bound) :
    workerSend decode e = some (e.name, d) := by
  simp [workerSend, hr, hd, tryIntoU64, hlt]

lemma workerSend_of_decode_err {decode : List Nat → Option Nat} {e : Entry}
    {bytes : List Nat} (hr : e.read = some bytes) (hd : decode bytes = none) :
    workerSend decode e = some (e.name, 0) := by
  simp [workerSend, hr, hd]

lemma workerSend_of_too_big {decode : List Nat → Option Nat} {e : Entry}
    {bytes : List Nat} {d : Nat} (hr : e.read = some bytes)
    (hd : decode bytes = some d) (hlt : ¬ d < u64Bound) :
    workerSend decode e = none := by
  simp [workerSend, hr, hd, tryIntoU64, hlt]

lemma workerSend_of_read_err {decode : List Nat → Option Nat} {e : Entry}
    (hr : e.read = none) : workerSend decode e = none := by
  simp [workerSend, hr]

lemma workerSend_name {decode : List Nat → Option Nat} {e : Entry}
    {r : String × Nat} (h : workerSend decode e = some r) : r.1 = e.name := by
  cases hr : e.read with
  | none => rw [workerSend_of_read_err hr] at h; cases h
  | some bytes =>
    cases hd : decode bytes with
    | none =>
      rw [workerSend_of_decode_err hr hd] at h
      cases h; rfl
    | some d =>
      by_cases hlt : d < u64Bound
      · rw [workerSend_of_decode_ok hr hd hlt] at h
        cases h; rfl
      · rw [workerSend_of_too_big hr hd hlt] at h
        cases h

lemma workerSend_isSome {decode : List Nat → Option Nat} {e : Entry}
    (hdec : ∀ bs d, decode bs = some d → d < u64Bound) {bytes : List Nat}
    (hr : e.read = some bytes) : (workerSend decode e).isSome = true := by
  cases hd : decode bytes with
  | none => rw [workerSend_of_decode_err hr hd]; rfl
  | some d => rw [workerSend_of_decode_ok hr hd (hdec bytes d hd)]; rfl

lemma sentResults_mem {decode : List Nat → Option Nat} {l : List Entry}
    {e : Entry} {r : String × Nat} (he : e ∈ l) (hc : classified e = true)
    (hw : workerSend decode e = some r) : r ∈ sentResults decode l :=
  List.mem_filterMap.mpr ⟨e, he, by simp [hc, hw]⟩

lemma sentResults_length (decode : List Nat → Option Nat)
    (hdec : ∀ bs d, decode bs = some d → d < u64Bound) (l : List Entry) :
    (sentResults decode l).length
      = (l.filter fun e => classified e && e.read.isSome).length := by
  induction l with
  | nil => rfl
  | cons a t ih =>
    simp only [sentResults] at ih ⊢
    rw [List.filterMap_cons, List.filter_cons]
    by_cases hc : classified a
    · cases hr : a.read with
      | none => simp [hc, hr, workerSend_of_read_err hr, ih]
      | some bytes =>
        have hs := @workerSend_isSome decode a hdec bytes hr
        obtain ⟨r, hr'⟩ := Option.isSome_iff_exists.mp hs
        simp [hc, hr, hr', ih]
    · simp [hc, ih]

lemma sentResults_filter_name (decode : List Nat → Option Nat)
    (l : List Entry) (n : String) :
    (sentResults decode l).filter (fun r => r.1 == n)
      = sentResults decode (l.filter fun e => e.name == n) := by
  induction l with
  | nil => rfl
  | cons a t ih =>
    simp only [sentResults] at ih ⊢
    rw [List.filterMap_cons, List.filter_cons]
    by_cases hc : classified a
    · cases hw : workerSend decode a with
      | none => by_cases hn : a.name == n <;>
          simp [hc, hw, hn, List.filterMap_cons, ih]
      | some r =>
        have hrn := workerSend_name hw
        by_cases hn : a.name == n
        · have : (r.1 == n) = true := by rw [hrn]; exact hn
          simp [hc, hw, hn, this, List.filterMap_cons, ih]
        · have : (r.1 == n) = false := by
            rw [hrn]; simpa using hn
          simp [hc, hw, hn, this, ih]
    · by_cases hn : a.name == n <;> simp [hc, hn, List.filterMap_cons, ih]

lemma filter_name_nil {l : List Entry} {n : String}
    (h : n ∉ l.map Entry.name) : l.filter (fun e => e.name == n) = [] := by
  rw [List.filter_eq_nil_iff]
  intro a ha hcontra
  exact h (List.mem_map.mpr ⟨a, ha, by simpa using hcontra⟩)

lemma filter_name_single {l : List Entry} {e : Entry}
    (hn : (l.map Entry.name).Nodup) (he : e ∈ l) :
    l.filter (fun x => x.name == e.name) = [e] := by
  induction l with
  | nil => cases he
  | cons a t ih =>
    rw [List.map_cons, List.nodup_cons] at hn
    rw [List.filter_cons]
    rcases List.mem_cons.mp he with rfl | het
    · simp only [beq_self_eq_true, if_true]
      rw [filter_name_nil hn.1]
    · have hne : (a.name == e.name) = false := by
        have : e.name ∈ t.map Entry.name := List.mem_map.mpr ⟨e, het, rfl⟩
        simp only [beq_eq_false_iff_ne, ne_eq]
        intro hEq; rw [hEq] at hn; exact hn.1 this
      rw [hne]
      simpa using ih hn.2 het

lemma sentResults_erase_of_skip (decode : List Nat → Option Nat)
    (l : List Entry) (e : Entry)
    (hf : (if classified e then workerSend decode e else none) = none) :
    sentResults decode (l.erase e) = sentResults decode l := by
  induction l with
  | nil => rfl
  | cons a t ih =>
    rw [List.erase_cons]
    by_cases ha : a = e
    · subst ha
      simp only [beq_self_eq_true, if_true]
      simp only [sentResults, List.filterMap_cons, hf]
    · have : (a == e) = false := by simpa using ha
      rw [this]
      simp only [if_neg Bool.false_ne_true]
      simp only [sentResults, List.filterMap_cons] at ih ⊢
      rw [ih]

/-! ### Channel lemmas -/

lemma chExec_queue (evs : List ChEv) : ∀ c : Ch,
    (chExec c evs).queue = c.queue ++ evs.filterMap sendMsg := by
  induction evs with
  | nil => intro c; simp [chExec]
  | cons ev t ih =>
    intro c
    rw [chExec, List.foldl_cons]
    have h := ih (chStep c ev)
    rw [chExec] at h
    rw [h]
    cases ev <;> simp [chStep, sendMsg, List.append_assoc]

lemma nClones_cons_clone (t : List ChEv) :
    nClones (ChEv.clone :: t) = nClones t + 1 := by
  simp [nClones, List.filter_cons, isClone]

lemma nClones_cons_dropS (t : List ChEv) :
    nClones (ChEv.dropS :: t) = nClones t := by
  simp [nClones, List.filter_cons, isClone]

lemma nClones_cons_send (m : String × Nat) (t : List ChEv) :
    nClones (ChEv.send m :: t) = nClones t := by
  simp [nClones, List.filter_cons, isClone]

lemma nDrops_cons_clone (t : List ChEv) :
    nDrops (ChEv.clone :: t) = nDrops t := by
  simp [nDrops, List.filter_cons, isDropS]

lemma nDrops_cons_dropS (t : List ChEv) :
    nDrops (ChEv.dropS :: t) = nDrops t + 1 := by
  simp [nDrops, List.filter_cons, isDropS]

lemma nDrops_cons_send (m : String × Nat) (t : List ChEv) :
    nDrops (ChEv.send m :: t) = nDrops t := by
  simp [nDrops, List.filter_cons, isDropS]

lemma chExec_senders (evs : List ChEv) : ∀ c : Ch,
    (∀ n, nDrops (evs.take n) ≤ nClones (evs.take n) + c.senders) →
    (chExec c evs).senders + nDrops evs = c.senders + nClones evs := by
  induction evs with
  | nil => intro c _; simp [chExec, nDrops, nClones]
  | cons ev t ih =>
    intro c hval
    cases ev with
    | clone =>
      show (chExec (chStep c ChEv.clone) t).senders + nDrops (ChEv.clone :: t)
          = c.senders + nClones (ChEv.clone :: t)
      have hs : (chStep c ChEv.clone).senders = c.senders + 1 := rfl
      have hval' : ∀ n, nDrops (t.take n) ≤ nClones (t.take n)
          + (chStep c ChEv.clone).senders := by
        intro n
        have h := hval (n + 1)
        rw [List.take_succ_cons, nDrops_cons_clone, nClones_cons_clone] at h
        rw [hs]
        omega
      have h := ih (chStep c ChEv.clone) hval'
      rw [hs] at h
      rw [nDrops_cons_clone, nClones_cons_clone]
      omega
    | dropS =>
      show (chExec (chStep c ChEv.dropS) t).senders + nDrops (ChEv.dropS :: t)
          = c.senders + nClones (ChEv.dropS :: t)
      have hs : (chStep c ChEv.dropS).senders = c.senders - 1 := rfl
      have hpos : 1 ≤ c.senders := by
        have h1 := hval 1
        rw [List.take_succ_cons, List.take_zero] at h1
        have hd1 : nDrops [ChEv.dropS] = 1 := rfl
        have hc1 : nClones [ChEv.dropS] = 0 := rfl
        rw [hd1, hc1] at h1
        omega
      have hval' : ∀ n, nDrops (t.take n) ≤ nClones (t.take n)
          + (chStep c ChEv.dropS).senders := by
        intro n
        have h := hval (n + 1)
        rw [List.take_succ_cons, nDrops_cons_dropS, nClones_cons_dropS] at h
        rw [hs]
        omega
      have h := ih (chStep c ChEv.dropS) hval'
      rw [hs] at h
      rw [nDrops_cons_dropS, nClones_cons_dropS]
      omega
    | send m =>
      show (chExec (chStep c (ChEv.send m)) t).senders
            + nDrops (ChEv.send m :: t)
          = c.senders + nClones (ChEv.send m :: t)
      have hs : (chStep c (ChEv.send m)).senders = c.senders := rfl
      have hval' : ∀ n, nDrops (t.take n) ≤ nClones (t.take n)
          + (chStep c (ChEv.send m)).senders := by
        intro n
        have h := hval (n + 1)
        rw [List.take_succ_cons, nDrops_cons_send, nClones_cons_send] at h
        rw [hs]
        omega
      have h := ih (chStep c (ChEv.send m)) hval'
      rw [hs] at h
      rw [nDrops_cons_send, nClones_cons_send]
      omega

lemma nClones_append (l₁ l₂ : List ChEv) :
    nClones (l₁ ++ l₂) = nClones l₁ + nClones l₂ := by
  simp [nClones, List.filter_append]

lemma nDrops_append (l₁ l₂ : List ChEv) :
    nDrops (l₁ ++ l₂) = nDrops l₁ + nDrops l₂ := by
  simp [nDrops, List.filter_append]

lemma workerEvents_clones (decode : List Nat → Option Nat) (e : Entry) :
    nClones (workerEvents decode e) = 1 := by
  cases h : workerSend decode e <;>
    simp [workerEvents, h, nClones, List.filter_cons, isClone]

lemma workerEvents_drops (decode : List Nat → Option Nat) (e : Entry) :
    nDrops (workerEvents decode e) = 1 := by
  cases h : workerSend decode e <;>
    simp [workerEvents, h, nDrops, List.filter_cons, isDropS]

lemma workerEvents_sendMsgs (decode : List Nat → Option Nat) (e : Entry) :
    (workerEvents decode e).filterMap sendMsg = (workerSend decode e).toList := by
  cases h : workerSend decode e <;>
    simp [workerEvents, h, sendMsg]

lemma canonical_clones (decode : List Nat → Option Nat) (l : List Entry) :
    nClones (canonicalEvents decode l) = (l.filter classified).length := by
  induction l with
  | nil => simp [canonicalEvents, nClones, List.filter_cons, isClone]
  | cons e es ih =>
    rw [canonicalEvents, nClones_append, ih, List.filter_cons]
    by_cases hc : classified e
    · simp [hc, workerEvents_clones, Nat.add_comm]
    · simp [hc, nClones]

lemma canonical_drops (decode : List Nat → Option Nat) (l : List Entry) :
    nDrops (canonicalEvents decode l) = (l.filter classified).length + 1 := by
  induction l with
  | nil => simp [canonicalEvents, nDrops, List.filter_cons, isDropS]
  | cons e es ih =>
    rw [canonicalEvents, nDrops_append, ih, List.filter_cons]
    by_cases hc : classified e
    · simp [hc, workerEvents_drops]
      omega
    · simp [hc, nDrops]

lemma canonical_sendMsgs (decode : List Nat → Option Nat) (l : List Entry) :
    (canonicalEvents decode l).filterMap sendMsg = sentResults decode l := by
  induction l with
  | nil => simp [canonicalEvents, sendMsg, sentResults]
  | cons e es ih =>
    rw [canonicalEvents, List.filterMap_append, ih]
    simp only [sentResults, List.filterMap_cons]
    by_cases hc : classified e
    · rw [if_pos hc]
      rw [workerEvents_sendMsgs]
      cases h : workerSend decode e <;> simp [h, hc]
    · rw [if_neg hc]
      simp [hc]

lemma nClones_perm {evs evs' : List ChEv} (h : evs.Perm evs') :
    nClones evs = nClones evs' := (h.filter isClone).length_eq

lemma nDrops_perm {evs evs' : List ChEv} (h : evs.Perm evs') :
    nDrops evs = nDrops evs' := (h.filter isDropS).length_eq

lemma drainLoop_closed (q : List (String × Nat)) : drainLoop q 0 = (q, true) := by
  induction q with
  | nil => rfl
  | cons m t ih => simp [drainLoop, ih]

lemma validSched_of_all_le (evs : List ChEv)
    (h : ∀ n, n ≤ evs.length → nDrops (evs.take n) ≤ nClones (evs.take n) + 1) :
    validSched evs := by
  intro n
  rcases le_or_lt n evs.length with hle | hlt
  · exact h n hle
  · rw [List.take_of_length_le (Nat.le_of_lt hlt)]
    have h2 := h evs.length (Nat.le_refl _)
    rwa [List.take_of_length_le (Nat.le_refl _)] at h2

lemma runSends_ok (decode : List Nat → Option Nat) (fs : FS)
    (hdir : fs.dirExists = true) (hok : fs.outCreateOk = true) :
    runSends decode fs = sentResults decode fs.entries := by
  simp [runSends, hdir, hok]

lemma sentResults_eq_nil (decode : List Nat → Option Nat) {l : List Entry}
    (h : ∀ e ∈ l, classified e = false) : sentResults decode l = [] := by
  rw [sentResults, List.filterMap_eq_nil_iff]
  intro e he
  simp [h e he]

/-! ### Claims -/

/-- Claim C1 (code-bug evidence): a run whose argument names a nonexistent
directory (so `read_dir` fails, while the output location is writable)
produces no worker results, yet the process exits with status 0, the output
file is created and holds the header line, and the total 0 is printed to
stdout.  The `expect("path needs to exist")` panic fires inside the
`tokio::spawn`ed dispatcher task and terminates only that task, dropping
the channel sender so the main task's receive loop ends normally. -/
theorem c1_missing_dir_behavior :
    runSends decNone ⟨false, true, []⟩ = []
    ∧ (run ⟨false, true, []⟩ []).exitCode = 0
    ∧ (run ⟨false, true, []⟩ []).outFileCreated = true
    ∧ (run ⟨false, true, []⟩ []).stdout = [0]
    ∧ fileContent (run ⟨false, true, []⟩ []) = [headerLine] := by
  refine ⟨rfl, rfl, rfl, rfl, rfl⟩

/-- Claim C2 counterexample: a classified file whose byte-read fails (here
`a.mp3` with `read = none`) leads to zero sends on the result channel — the
worker panics at `expect("failed to read mp3 file")` before reaching its
send — refuting "exactly one send … regardless of whether reading the file
… succeeds or fails". -/
theorem c2_counterexample :
    classified ⟨"a.mp3", false, none⟩ = true
    ∧ workerSendCount dec5 ⟨"a.mp3", false, none⟩ = 0 := by
  refine ⟨by decide, rfl⟩

/-- Claim C2 as amended: for a decoder whose durations fit in `u64`, a
worker performs exactly one send when its file read succeeds (decode
success or failure alike) and zero sends when the read fails. -/
theorem c2_amended_one_send_iff_read_ok (decode : List Nat → Option Nat)
    (e : Entry) (hdec : ∀ bs d, decode bs = some d → d < u64Bound) :
    workerSendCount decode e = if e.read.isSome then 1 else 0 := by
  cases hr : e.read with
  | none => simp [workerSendCount, workerSend_of_read_err hr, hr]
  | some bytes =>
    have hs := @workerSend_isSome decode e hdec bytes hr
    obtain ⟨r, hr'⟩ := Option.isSome_iff_exists.mp hs
    simp [workerSendCount, hr', hr]

/-- Witness for the amended claim C2 at a concrete readable file. -/
theorem c2_amended_witness :
    workerSendCount dec5 ⟨"b.MP3", false, some [1]⟩
      = if (some [1] : Option (List Nat)).isSome then 1 else 0 :=
  c2_amended_one_send_iff_read_ok dec5 ⟨"b.MP3", false, some [1]⟩
    (fun bs d h => by
      simp only [dec5, Option.some.injEq] at h
      rw [← h]
      norm_num [u64Bound])

/-- Claim C6 counterexample: a subdirectory named `x.mp3` is accepted by the
code's classifier (only the extension is examined), while the spec's
classifier — regular file AND matching extension — rejects it.  So
"accepts iff the entry is a regular file whose extension matches" is false
of the code. -/
theorem c6_counterexample :
    classified ⟨"x.mp3", true, none⟩ = true
    ∧ (⟨"x.mp3", true, none⟩ : Entry).isDir = true
    ∧ specAccepts ⟨"x.mp3", true, none⟩ = false := by
  refine ⟨by decide, rfl, by decide⟩

/-- Claim C6 as amended: the classifier accepts an entry based solely on its
name's extension — the entry's file kind and readability are never
consulted — and a rejected entry produces no DurationResult and contributes
nothing to the results (removing it changes neither the result list nor the
total). -/
theorem c6_amended_classifier (decode : List Nat → Option Nat) (nm : String)
    (d₁ d₂ : Bool) (r₁ r₂ : Option (List Nat)) (l : List Entry) (e : Entry)
    (hrej : classified e = false) :
    classified ⟨nm, d₁, r₁⟩ = classified ⟨nm, d₂, r₂⟩
    ∧ sentResults decode (l.erase e) = sentResults decode l
    ∧ wtotal (sentResults decode (l.erase e)) = wtotal (sentResults decode l) := by
  have herase := sentResults_erase_of_skip decode l e (by simp [hrej])
  exact ⟨rfl, herase, by rw [herase]⟩

/-- Witness for the amended claim C6: a rejected `notes.txt` entry, in a
directory that also holds a classified file. -/
theorem c6_amended_witness :
    classified ⟨"notes.txt", true, none⟩ = classified ⟨"notes.txt", false, some []⟩
    ∧ sentResults dec5
        ([⟨"a.mp3", false, some []⟩, ⟨"notes.txt", false, some []⟩].erase
          ⟨"notes.txt", false, some []⟩)
        = sentResults dec5 [⟨"a.mp3", false, some []⟩, ⟨"notes.txt", false, some []⟩]
    ∧ wtotal (sentResults dec5
        ([⟨"a.mp3", false, some []⟩, ⟨"notes.txt", false, some []⟩].erase
          ⟨"notes.txt", false, some []⟩))
        = wtotal (sentResults dec5
            [⟨"a.mp3", false, some []⟩, ⟨"notes.txt", false, some []⟩]) :=
  c6_amended_classifier dec5 "notes.txt" true false none (some [])
    [⟨"a.mp3", false, some []⟩, ⟨"notes.txt", false, some []⟩]
    ⟨"notes.txt", false, some []⟩ (by decide)

/-- Claim C8 (confirmed): on a readable directory with no classified entry,
the output file holds exactly the header line (which names the clip and
duration columns), the printed total is 0, and the run succeeds — for every
arrival order. -/
theorem c8_empty_dir (decode : List Nat → Option Nat) (fs : FS)
    (arrival : List (String × Nat)) (hdir : fs.dirExists = true)
    (hok : fs.outCreateOk = true)
    (hnone : ∀ e ∈ fs.entries, classified e = false)
    (harr : arrival.Perm (runSends decode fs)) :
    fileContent (run fs arrival) = [headerLine]
    ∧ (run fs arrival).stdout = [0]
    ∧ (run fs arrival).exitCode = 0 := by
  have hsends : runSends decode fs = [] := by
    rw [runSends_ok decode fs hdir hok, sentResults_eq_nil decode hnone]
  rw [hsends] at harr
  have harr' : arrival = [] := List.perm_nil.mp harr
  subst harr'
  refine ⟨?_, ?_, run_exit fs [] hok⟩
  · rw [fileContent]
    rw [run_records fs [] hok]
    simp [run, hok]
  · rw [run_stdout fs [] hok]
    rfl

/-- Witness for claim C8: a readable directory holding a single
unclassified file. -/
theorem c8_witness :
    fileContent (run ⟨true, true, [⟨"notes.txt", false, some []⟩]⟩ []) = [headerLine]
    ∧ (run ⟨true, true, [⟨"notes.txt", false, some []⟩]⟩ []).stdout = [0]
    ∧ (run ⟨true, true, [⟨"notes.txt", false, some []⟩]⟩ []).exitCode = 0 :=
  c8_empty_dir dec5 ⟨true, true, [⟨"notes.txt", false, some []⟩]⟩ [] rfl rfl
    (by decide) (by decide)

/-- Claim C3 counterexample: two decodable files of 2^63 ms each.  The `u64`
accumulator wraps, so the printed total is 0 while the sum of the per-file
durations is 2^64 — the printed value does not equal d1+...+dn. -/
theorem c3_counterexample :
    (run hugeFS (runSends decHuge hugeFS)).stdout = [0]
    ∧ ((runSends decHuge hugeFS).map Prod.snd).sum = 2 ^ 64
    ∧ (0 : Nat) ≠ 2 ^ 64 := by
  refine ⟨rfl, rfl, by norm_num⟩

/-- Claim C3 as amended: the printed total is the sum of the workers'
durations reduced modulo 2^64 (the wrapping `u64` accumulator), it is the
same for every order in which the writer receives the results, and it
equals the exact sum whenever that sum is below 2^64. -/
theorem c3_amended_wrapping_total (decode : List Nat → Option Nat) (fs : FS)
    (arrival arrival' : List (String × Nat)) (hok : fs.outCreateOk = true)
    (h1 : arrival.Perm (runSends decode fs))
    (h2 : arrival'.Perm (runSends decode fs)) :
    (run fs arrival).stdout
        = [(((runSends decode fs).map Prod.snd).sum) % u64Bound]
    ∧ (run fs arrival).stdout = (run fs arrival').stdout
    ∧ (((runSends decode fs).map Prod.snd).sum < u64Bound →
        (run fs arrival).stdout = [((runSends decode fs).map Prod.snd).sum]) := by
  have e1 := run_stdout fs arrival hok
  have e2 := run_stdout fs arrival' hok
  have w1 := wtotal_perm h1
  have w2 := wtotal_perm h2
  refine ⟨?_, ?_, ?_⟩
  · rw [e1, w1, wtotal_eq_sum_mod]
  · rw [e1, e2, w1, w2]
  · intro hlt
    rw [e1, w1, wtotal_eq_sum_mod, Nat.mod_eq_of_lt hlt]

/-- Witness for the amended claim C3: two readable 5 ms files received in
either order produce the same printed total, 10. -/
theorem c3_amended_witness :
    (run hugeFS [("b.mp3", 5), ("a.mp3", 5)]).stdout
        = [(((runSends dec5 hugeFS).map Prod.snd).sum) % u64Bound]
    ∧ (run hugeFS [("b.mp3", 5), ("a.mp3", 5)]).stdout
        = (run hugeFS [("a.mp3", 5), ("b.mp3", 5)]).stdout
    ∧ (((runSends dec5 hugeFS).map Prod.snd).sum < u64Bound →
        (run hugeFS [("b.mp3", 5), ("a.mp3", 5)]).stdout
          = [((runSends dec5 hugeFS).map Prod.snd).sum]) :=
  c3_amended_wrapping_total dec5 hugeFS [("b.mp3", 5), ("a.mp3", 5)]
    [("a.mp3", 5), ("b.mp3", 5)] rfl
    (by have : runSends dec5 hugeFS = [("a.mp3", 5), ("b.mp3", 5)] := by decide
        rw [this]
        exact List.Perm.swap _ _ _)
    (by have : runSends dec5 hugeFS = [("a.mp3", 5), ("b.mp3", 5)] := by decide
        rw [this])

/-- Claim C5 counterexample: the trace of a successful run contains a
printed total but no flush event at all — the code never flushes or syncs
the output file — so the total is not printed "after the output file has
been durably flushed". -/
theorem c5_counterexample :
    specPrintAfterFlush (runTrace ⟨true, true, []⟩ []) = false
    ∧ Ev.printTotal 0 ∈ runTrace ⟨true, true, []⟩ []
    ∧ runSends decNone ⟨true, true, []⟩ = [] := by
  refine ⟨rfl, by decide, rfl⟩

/-- Claim C5 as amended: in every run that reaches the writer loop, the
total is printed exactly once, as the last event — hence after every record
write has completed — but no flush of the output file ever occurs. -/
theorem c5_amended_print_last_no_flush (fs : FS)
    (arrival : List (String × Nat)) (hok : fs.outCreateOk = true) :
    (∃ pre t, runTrace fs arrival = pre ++ [Ev.printTotal t]
      ∧ ∀ ev ∈ pre, ∀ u, ev ≠ Ev.printTotal u)
    ∧ Ev.flushFile ∉ runTrace fs arrival := by
  constructor
  · refine ⟨Ev.createFile :: Ev.writeHeader ::
      (arrival.map fun r => Ev.writeRecord r.1 r.2), wtotal arrival, ?_, ?_⟩
    · rw [runTrace_ok fs arrival hok]
    · intro ev hev u
      rcases List.mem_cons.mp hev with rfl | hev
      · simp
      rcases List.mem_cons.mp hev with rfl | hev
      · simp
      obtain ⟨r, _, rfl⟩ := List.mem_map.mp hev
      simp
  · rw [runTrace_ok fs arrival hok]
    simp [List.mem_cons, List.mem_append, List.mem_map]

/-- Witness for the amended claim C5 on a concrete one-record run. -/
theorem c5_amended_witness :
    (∃ pre t, runTrace ⟨true, true, []⟩ [("a.mp3", 7)]
        = pre ++ [Ev.printTotal t]
      ∧ ∀ ev ∈ pre, ∀ u, ev ≠ Ev.printTotal u)
    ∧ Ev.flushFile ∉ runTrace ⟨true, true, []⟩ [("a.mp3", 7)] :=
  c5_amended_print_last_no_flush ⟨true, true, []⟩ [("a.mp3", 7)] rfl

/-- Claim C7 (confirmed): a classified file whose bytes are read but fail to
decode still yields a row with duration 0, the run exits successfully with
a printed total, and every other classified readable file's row still
appears — for every arrival order. -/
theorem c7_decode_failure_row (decode : List Nat → Option Nat) (fs : FS)
    (arrival : List (String × Nat)) (e : Entry) (bytes : List Nat)
    (hdec : ∀ bs d, decode bs = some d → d < u64Bound)
    (hdir : fs.dirExists = true) (hok : fs.outCreateOk = true)
    (he : e ∈ fs.entries) (hcl : classified e = true)
    (hrd : e.read = some bytes) (hdf : decode bytes = none)
    (harr : arrival.Perm (runSends decode fs)) :
    (e.name, 0) ∈ (run fs arrival).records
    ∧ (run fs arrival).exitCode = 0
    ∧ (run fs arrival).stdout = [wtotal (runSends decode fs)]
    ∧ ∀ e' ∈ fs.entries, classified e' = true → e'.read.isSome = true →
        ∃ d, (e'.name, d) ∈ (run fs arrival).records := by
  rw [run_records fs arrival hok, run_stdout fs arrival hok,
    runSends_ok decode fs hdir hok] at *
  refine ⟨?_, run_exit fs arrival hok, ?_, ?_⟩
  · exact harr.mem_iff.mpr
      (sentResults_mem he hcl (workerSend_of_decode_err hrd hdf))
  · rw [wtotal_perm harr]
  · intro e' he' hcl' hrd'
    obtain ⟨bytes', hb'⟩ := Option.isSome_iff_exists.mp hrd'
    obtain ⟨r, hr⟩ := Option.isSome_iff_exists.mp
      (@workerSend_isSome decode e' hdec bytes' hb')
    refine ⟨r.2, ?_⟩
    have hname := workerSend_name hr
    have : r = (e'.name, r.2) := by
      rw [← hname]
    rw [← this]
    exact harr.mem_iff.mpr (sentResults_mem he' hcl' hr)

/-- Witness for claim C7: `broken.mp3` fails to decode while `a.mp3` is
fine; the run still reports both rows and succeeds. -/
theorem c7_witness :
    ("broken.mp3", 0)
        ∈ (run ⟨true, true, [⟨"broken.mp3", false, some [9]⟩, ⟨"a.mp3", false, some []⟩]⟩
            (runSends decNone
              ⟨true, true, [⟨"broken.mp3", false, some [9]⟩, ⟨"a.mp3", false, some []⟩]⟩)).records
    ∧ (run ⟨true, true, [⟨"broken.mp3", false, some [9]⟩, ⟨"a.mp3", false, some []⟩]⟩
        (runSends decNone
          ⟨true, true, [⟨"broken.mp3", false, some [9]⟩, ⟨"a.mp3", false, some []⟩]⟩)).exitCode = 0
    ∧ (run ⟨true, true, [⟨"broken.mp3", false, some [9]⟩, ⟨"a.mp3", false, some []⟩]⟩
        (runSends decNone
          ⟨true, true, [⟨"broken.mp3", false, some [9]⟩, ⟨"a.mp3", false, some []⟩]⟩)).stdout
        = [wtotal (runSends decNone
            ⟨true, true, [⟨"broken.mp3", false, some [9]⟩, ⟨"a.mp3", false, some []⟩]⟩)]
    ∧ ∀ e' ∈ ([⟨"broken.mp3", false, some [9]⟩, ⟨"a.mp3", false, some []⟩] : List Entry),
        classified e' = true → e'.read.isSome = true →
        ∃ d, (e'.name, d)
          ∈ (run ⟨true, true, [⟨"broken.mp3", false, some [9]⟩, ⟨"a.mp3", false, some []⟩]⟩
              (runSends decNone
                ⟨true, true, [⟨"broken.mp3", false, some [9]⟩, ⟨"a.mp3", false, some []⟩]⟩)).records :=
  c7_decode_failure_row decNone
    ⟨true, true, [⟨"broken.mp3", false, some [9]⟩, ⟨"a.mp3", false, some []⟩]⟩
    (runSends decNone
      ⟨true, true, [⟨"broken.mp3", false, some [9]⟩, ⟨"a.mp3", false, some []⟩]⟩)
    ⟨"broken.mp3", false, some [9]⟩ [9]
    (fun bs d h => by simp [decNone] at h)
    rfl rfl (by decide) (by decide) rfl rfl (List.Perm.refl _)

/-- Claim C4 counterexample: a directory whose single entry is a regular
file `a.mp3` that cannot be read.  The spec-side count of matching entries
is 1, yet the run succeeds (exit 0, total printed) with 0 data rows — the
worker's read panic silently loses the row. -/
theorem c4_counterexample :
    (run unreadableFS (runSends decNone unreadableFS)).exitCode = 0
    ∧ (run unreadableFS (runSends decNone unreadableFS)).stdout = [0]
    ∧ specMatchCount unreadableFS.entries = 1
    ∧ (run unreadableFS (runSends decNone unreadableFS)).records.length = 0 := by
  refine ⟨rfl, rfl, by decide, rfl⟩

/-- Claim C4 as amended: the number of data rows equals the number of
classified entries whose byte-read succeeds, and each such entry yields
exactly one row; classified entries whose read fails yield none. -/
theorem c4_amended_row_count (decode : List Nat → Option Nat) (fs : FS)
    (arrival : List (String × Nat))
    (hdec : ∀ bs d, decode bs = some d → d < u64Bound)
    (hdir : fs.dirExists = true) (hok : fs.outCreateOk = true)
    (hnodup : (fs.entries.map Entry.name).Nodup)
    (harr : arrival.Perm (runSends decode fs)) :
    (run fs arrival).records.length
        = (fs.entries.filter fun e => classified e && e.read.isSome).length
    ∧ ∀ e ∈ fs.entries, classified e = true → e.read.isSome = true →
        rowsNamed (run fs arrival) e.name = 1 := by
  have hrec := run_records fs arrival hok
  have hsr := runSends_ok decode fs hdir hok
  rw [hsr] at harr
  constructor
  · rw [hrec, harr.length_eq, sentResults_length decode hdec fs.entries]
  · intro e he hcl hrd
    rw [rowsNamed, hrec]
    have hpermf := harr.filter (fun r => r.1 == e.name)
    rw [List.Perm.length_eq hpermf, sentResults_filter_name,
      filter_name_single hnodup he]
    obtain ⟨bytes, hb⟩ := Option.isSome_iff_exists.mp hrd
    obtain ⟨r, hr⟩ := Option.isSome_iff_exists.mp
      (@workerSend_isSome decode e hdec bytes hb)
    simp [sentResults, hcl, hr]

/-- Witness for the amended claim C4 on a mixed directory. -/
theorem c4_amended_witness :
    (run mixedFS (runSends dec5 mixedFS)).records.length
        = (mixedFS.entries.filter fun e => classified e && e.read.isSome).length
    ∧ ∀ e ∈ mixedFS.entries, classified e = true → e.read.isSome = true →
        rowsNamed (run mixedFS (runSends dec5 mixedFS)) e.name = 1 :=
  c4_amended_row_count dec5 mixedFS (runSends dec5 mixedFS)
    (fun bs d h => by
      simp only [dec5, Option.some.injEq] at h
      rw [← h]
      norm_num [u64Bound])
    rfl rfl (by decide) (List.Perm.refl _)

/-- Claim C9 (confirmed): when a classified file's byte-read fails, only
that worker dies: the run still exits 0 and prints a total, the file gets
no output row (in particular no zero-duration row), removing the entry
changes nothing, and every other classified readable file still appears. -/
theorem c9_read_failure_skips_file (decode : List Nat → Option Nat) (fs : FS)
    (arrival : List (String × Nat)) (e : Entry)
    (hdec : ∀ bs d, decode bs = some d → d < u64Bound)
    (hdir : fs.dirExists = true) (hok : fs.outCreateOk = true)
    (hnodup : (fs.entries.map Entry.name).Nodup)
    (he : e ∈ fs.entries) (hcl : classified e = true) (hrd : e.read = none)
    (harr : arrival.Perm (runSends decode fs)) :
    (run fs arrival).exitCode = 0
    ∧ (run fs arrival).stdout = [wtotal (runSends decode fs)]
    ∧ (∀ d, (e.name, d) ∉ (run fs arrival).records)
    ∧ sentResults decode (fs.entries.erase e) = sentResults decode fs.entries
    ∧ ∀ e' ∈ fs.entries, classified e' = true → e'.read.isSome = true →
        ∃ d, (e'.name, d) ∈ (run fs arrival).records := by
  have hrec := run_records fs arrival hok
  have hsr := runSends_ok decode fs hdir hok
  have harr' := harr
  rw [hsr] at harr'
  refine ⟨run_exit fs arrival hok, ?_, ?_, ?_, ?_⟩
  · rw [run_stdout fs arrival hok, wtotal_perm harr]
  · intro d hmem
    rw [hrec] at hmem
    have hmem' := harr'.mem_iff.mp hmem
    have hfil : (e.name, d)
        ∈ (sentResults decode fs.entries).filter (fun r => r.1 == e.name) :=
      List.mem_filter.mpr ⟨hmem', by simp⟩
    rw [sentResults_filter_name, filter_name_single hnodup he] at hfil
    simp [sentResults, hcl, workerSend_of_read_err hrd] at hfil
  · exact sentResults_erase_of_skip decode fs.entries e
      (by simp [hcl, workerSend_of_read_err hrd])
  · intro e' he' hcl' hrd'
    obtain ⟨bytes', hb'⟩ := Option.isSome_iff_exists.mp hrd'
    obtain ⟨r, hr⟩ := Option.isSome_iff_exists.mp
      (@workerSend_isSome decode e' hdec bytes' hb')
    refine ⟨r.2, ?_⟩
    have hname := workerSend_name hr
    have hre : r = (e'.name, r.2) := by rw [← hname]
    rw [hrec, ← hre]
    exact harr'.mem_iff.mpr (sentResults_mem he' hcl' hr)

/-- Witness for claim C9: `gone.mp3` vanishes before its read while `a.mp3`
is processed normally. -/
theorem c9_witness :
    (run goneFS (runSends dec5 goneFS)).exitCode = 0
    ∧ (run goneFS (runSends dec5 goneFS)).stdout = [wtotal (runSends dec5 goneFS)]
    ∧ (∀ d, ("gone.mp3", d) ∉ (run goneFS (runSends dec5 goneFS)).records)
    ∧ sentResults dec5 (goneFS.entries.erase ⟨"gone.mp3", false, none⟩)
        = sentResults dec5 goneFS.entries
    ∧ ∀ e' ∈ goneFS.entries, classified e' = true → e'.read.isSome = true →
        ∃ d, (e'.name, d) ∈ (run goneFS (runSends dec5 goneFS)).records :=
  c9_read_failure_skips_file dec5 goneFS (runSends dec5 goneFS)
    ⟨"gone.mp3", false, none⟩
    (fun bs d h => by
      simp only [dec5, Option.some.injEq] at h
      rw [← h]
      norm_num [u64Bound])
    rfl rfl (by decide) (by decide) (by decide) rfl (List.Perm.refl _)

/-- Claim C10 (confirmed): for every interleaving of the run's sender-side
events — each worker's clone/send/drop plus the dispatcher's final drop of
the original sender, with no handle dropped before it exists — all senders
end up dropped, the queue holds exactly the workers' results (in some
order), and the writer's receive loop drains them all and then terminates
because `recv` reports the channel closed, never blocking forever; the
total it reports is the order-independent wrapped sum. -/
theorem c10_channel_drains_and_closes (decode : List Nat → Option Nat)
    (entries : List Entry) (evs : List ChEv)
    (hperm : evs.Perm (canonicalEvents decode entries))
    (hvalid : validSched evs) :
    (chExec chInit evs).senders = 0
    ∧ (chExec chInit evs).queue.Perm (sentResults decode entries)
    ∧ drainLoop (chExec chInit evs).queue (chExec chInit evs).senders
        = ((chExec chInit evs).queue, true)
    ∧ wtotal (chExec chInit evs).queue = wtotal (sentResults decode entries) := by
  have hc : nClones evs = (entries.filter classified).length := by
    rw [nClones_perm hperm, canonical_clones]
  have hd : nDrops evs = (entries.filter classified).length + 1 := by
    rw [nDrops_perm hperm, canonical_drops]
  have hsend := chExec_senders evs chInit (by
    intro n
    have h := hvalid n
    simpa [chInit] using h)
  have hs0 : (chExec chInit evs).senders = 0 := by
    rw [hc, hd] at hsend
    have h1 : chInit.senders = 1 := rfl
    rw [h1] at hsend
    omega
  have hq : (chExec chInit evs).queue.Perm (sentResults decode entries) := by
    rw [chExec_queue evs chInit]
    simp only [chInit, List.nil_append]
    rw [← canonical_sendMsgs decode entries]
    exact hperm.filterMap sendMsg
  exact ⟨hs0, hq, by rw [hs0]; exact drainLoop_closed _, wtotal_perm hq⟩

/-- Witness for claim C10 on the mixed directory's canonical schedule. -/
theorem c10_witness :
    (chExec chInit (canonicalEvents dec5 mixedFS.entries)).senders = 0
    ∧ (chExec chInit (canonicalEvents dec5 mixedFS.entries)).queue.Perm
        (sentResults dec5 mixedFS.entries)
    ∧ drainLoop (chExec chInit (canonicalEvents dec5 mixedFS.entries)).queue
        (chExec chInit (canonicalEvents dec5 mixedFS.entries)).senders
        = ((chExec chInit (canonicalEvents dec5 mixedFS.entries)).queue, true)
    ∧ wtotal (chExec chInit (canonicalEvents dec5 mixedFS.entries)).queue
        = wtotal (sentResults dec5 mixedFS.entries) :=
  c10_channel_drains_and_closes dec5 mixedFS.entries
    (canonicalEvents dec5 mixedFS.entries) (List.Perm.refl _)
    (validSched_of_all_le _ (by decide))
